import Mathlib

/-!
Shallow embedding of the table-to-RDF conversion core of `convertir_a_rdf.py`
(repository TabuladorRDF), together with proofs settling the frozen claims
about the natural-language specification of that module.

Conventions of the embedding:
* Python strings are Lean `String`s; all string algorithms are implemented
  over `List Char` (the `.data` view) so that concrete instances evaluate
  inside the kernel.
* The regex class `\w` of `clean_uri_segment` is modelled as ASCII
  alphanumerics plus `'_'` (`Char.isAlphanum` is ASCII); every claim at
  stake only involves ASCII inputs.
* A pandas cell is `Cell`: either the null marker `Cell.na` (NaN/None,
  `pd.isna` true) or a string value.  Python's `str(...)` of a NaN cell is
  the string "nan" (`Cell.pyStr`).
* A row is an association list column-name ↦ cell; a dataframe is a list of
  rows, `iterrows` indices being positional (the cleaned frames use a
  default RangeIndex).
* `rdflib.Graph` is a set of triples; we model it as a duplicate-free list
  with set-semantics insertion (`addTriple`), so "number of triples" of a
  shape is the length of a `filter`.
* The Python `set` iteration in the composite-identifier reduction
  (line 198) is modelled as insertion order; the kept set is an antichain
  under the prefix order, so at most one element can be prefix-related to a
  candidate and the iteration order cannot change the outcome.
* Python dict iteration (3.7+) is insertion order: dicts become association
  lists; the dict comprehension for multivalued delimiters keeps the last
  binding of a repeated key (`lookupDelimCfg` searches the reversed list).
-/

namespace TabuladorRDF

/-- Characters kept by the regex `[^\w.-]+` of `clean_uri_segment`
(line 54): word characters (ASCII model of `\w`, which includes `'_'`),
`'.'` and `'-'`. -/
def isKeptChar (c : Char) : Bool :=
  c.isAlphanum || c == '_' || c == '.' || c == '-'

/-- One pass of `re.sub(r'[^\w.-]+', '_', text)`: every maximal run of
non-kept characters becomes a single `'_'`.  The flag records whether the
previous character belonged to a (already replaced) bad run. -/
def collapseAux : Bool → List Char → List Char
  | _, [] => []
  | prevBad, c :: cs =>
    if isKeptChar c then c :: collapseAux false cs
    else if prevBad then collapseAux true cs
    else '_' :: collapseAux true cs

/-- `re.sub(r'[^\w.-]+', '_', text)` over the character list. -/
def collapseRuns (l : List Char) : List Char := collapseAux false l

/-- Python `str.strip(chars)` generalised: drop characters satisfying `p`
from both ends of the list. -/
def stripEnds (p : Char → Bool) (l : List Char) : List Char :=
  ((l.dropWhile p).reverse.dropWhile p).reverse

/-- `clean_uri_segment` (lines 35-62): collapse runs of characters outside
`[\w.-]` to `'_'`, then `strip('_')`, then `strip('-')`, falling back to
"unknown" when the result is empty.  (The `str()` coercion for non-string
inputs is outside the model: inputs are already strings.) -/
def clean_uri_segment (s : String) : String :=
  let l := stripEnds (fun c => c == '-')
      (stripEnds (fun c => c == '_') (collapseRuns s.data))
  if l.isEmpty then "unknown" else String.mk l

/-- Python `str.strip()` (whitespace at both ends), used by the blank test
on the main-id value (line 136) and by the value splitter (line 181). -/
def pyStrip (s : String) : String := String.mk (stripEnds Char.isWhitespace s.data)

/-- Whether `pat` is an initial segment of `l` (helper for the split and
for Python `str.startswith`). -/
def beginsWith : List Char → List Char → Bool
  | [], _ => true
  | _ :: _, [] => false
  | p :: ps, c :: cs => p == c && beginsWith ps cs

/-- Python `cleaned.startswith(existing)` (lines 201/207). -/
def pyStartsWith (s pre : String) : Bool := beginsWith pre.data s.data

/-- Python `str.split(sep)` over character lists, recursion on a fuel
bound (structural, so that the kernel can evaluate it): split on every
non-overlapping occurrence of `sep`, keeping empty pieces.  Every step
shortens the list by at least one character when `sep` is nonempty, so
fuel `l.length` never runs out.  (Python raises on an empty separator; an
empty separator never splits here.) -/
def splitGo (sep : List Char) : Nat → List Char → List (List Char)
  | _, [] => [[]]
  | 0, l => [l]
  | fuel + 1, c :: cs =>
    if sep ≠ [] ∧ beginsWith sep (c :: cs) then
      [] :: splitGo sep fuel ((c :: cs).drop sep.length)
    else
      match splitGo sep fuel cs with
      | [] => [[c]]
      | r :: rs => (c :: r) :: rs

/-- Python `str.split(sep)` over character lists. -/
def splitOnL (sep l : List Char) : List (List Char) := splitGo sep l.length l

/-- Python `raw.split(delim)` at `String` level. -/
def pySplit (s sep : String) : List String :=
  (splitOnL sep.data s.data).map String.mk

/-- Value splitter (lines 181/296):
`[v.strip() for v in raw.split(delim) if v.strip()] if multivalued else [raw]`. -/
def splitValues (raw : String) (isMulti : Bool) (delim : String) : List String :=
  if isMulti then ((pySplit raw delim).map pyStrip).filter (fun v => v != "")
  else [raw]

/-- A pandas cell: null (NaN/None, `pd.isna` true) or a string value. -/
inductive Cell where
  | na : Cell
  | str : String → Cell
deriving DecidableEq

/-- Python `str(cell)`: `str(nan)` is the string "nan". -/
def Cell.pyStr : Cell → String
  | .na => "nan"
  | .str s => s

/-- A dataframe row: association list from column name to cell. -/
abbrev Row := List (String × Cell)

/-- `row.get(col)` / `col in row`: first binding of the column, if any. -/
def rowGet (r : Row) (c : String) : Option Cell :=
  (r.find? (fun p => p.1 == c)).map (fun p => p.2)

/-- One entry of `column_rdf_mappings` (the dict describing one column).
Optional fields mirror the `.get(...)` accesses of the code; `prop_uri`
and `mapping_type` are accessed with `[...]` and hence required. -/
structure MappingConfig where
  prop_uri : String
  mapping_type : String
  datatype : Option String := none
  is_multivalued : Option Bool := none
  delimiter : Option String := none
  applies_to_entity : Option String := none
  related_entity_type_uri : Option String := none
  related_entity_id_col : Option String := none
deriving DecidableEq

/-- An RDF term in object position: a URI reference, or a literal with an
optional datatype (rdflib distinguishes plain and typed literals). -/
inductive RdfTerm where
  | uri : String → RdfTerm
  | lit : String → Option String → RdfTerm
deriving DecidableEq

/-- An RDF triple (subject and predicate are always URIs here). -/
structure Triple where
  subj : String
  pred : String
  obj : RdfTerm
deriving DecidableEq

/-- The graph: rdflib graphs are triple sets; we keep a duplicate-free
list in insertion order. -/
abbrev Graph := List Triple

/-- `g.add(t)`: set-semantics insertion. -/
def addTriple (g : Graph) (t : Triple) : Graph :=
  if t ∈ g then g else g ++ [t]

/-- Add a list of triples in order. -/
def addTriples (g : Graph) (ts : List Triple) : Graph := ts.foldl addTriple g

/-- Namespace and vocabulary constants (lines 18-32). -/
def DRBER : String := "http://drber.example.org/ns#"

/-- URI of `RDF.type`. -/
def rdfType : String := "http://www.w3.org/1999/02/22-rdf-syntax-ns#type"

/-- URI of `RDFS.label`. -/
def rdfsLabel : String := "http://www.w3.org/2000/01/rdf-schema#label"

/-- URI of `OWL.Class`. -/
def owlClass : String := "http://www.w3.org/2002/07/owl#Class"

/-- URI of `XSD.string`, the default literal datatype (line 223). -/
def xsdString : String := "http://www.w3.org/2001/XMLSchema#string"

/-- URI of the `drber:code` property used by the code heuristic (line 312). -/
def drberCode : String := DRBER ++ "code"

/-- URI of the generic fallback related-entity class (line 232). -/
def drberRelatedEntity : String := DRBER ++ "RelatedEntity"

/-- `uri_str.split('#')[-1].lower()` then `clean_uri_segment` (lines 143/264).
`toLower` is ASCII, like the inputs at stake. -/
def typeLocalSegment (typeUriStr : String) : String :=
  clean_uri_segment (String.mk (((pySplit typeUriStr "#").getLastD "").data.map Char.toLower))

/-- URI minted for a related entity (line 264). -/
def relatedEntityUri (typeUriStr idValue : String) : String :=
  DRBER ++ typeLocalSegment typeUriStr ++ "/" ++ clean_uri_segment idValue

/-- `if not related_entity_type_uri_str:` fallback (lines 228-232): Python
falsiness of an optional string is `None` or `""`. -/
def effectiveTypeStr (o : Option String) : String :=
  match o with
  | none => drberRelatedEntity
  | some s => if s = "" then drberRelatedEntity else s

/-- Stable insertion (descending length) used to model Python's stable
`values.sort(key=len, reverse=True)` (line 192). -/
def insertLenDesc (v : String) : List String → List String
  | [] => [v]
  | x :: xs => if v.length < x.length then x :: insertLenDesc v xs else v :: x :: xs

/-- Stable sort by descending raw length (line 192). -/
def sortByLenDesc (l : List String) : List String := l.foldr insertLenDesc []

/-- State of the composite-identifier reduction loop (lines 189-218):
`kept` is `processed_sub_values` (a Python set, modelled in insertion
order — see the header note), `out` is `final_values_for_entity_creation`. -/
structure ReduceState where
  kept : List String
  out : List String
deriving DecidableEq

/-- The inner `for existing_val in processed_sub_values` loop (lines
198-209): first kept form prefix-related to the candidate's cleaned form.
`some (true, e)`: `e` is a strict prefix of the candidate (supersede `e`);
`some (false, e)`: the candidate is a strict prefix of `e` (redundant). -/
def findRel (c : String) : List String → Option (Bool × String)
  | [] => none
  | e :: es =>
    if pyStartsWith c e && c != e then some (true, e)
    else if pyStartsWith e c && e != c then some (false, e)
    else findRel c es

/-- `set.add` (sets never hold duplicates). -/
def addKept (kept : List String) (c : String) : List String :=
  if c ∈ kept then kept else kept ++ [c]

/-- One iteration of the outer reduction loop (lines 195-213).  In the
supersede branch the superseded form is removed from the set and the
candidate appended to the output; values appended on earlier iterations
are never removed. -/
def reduceStep (st : ReduceState) (val : String) : ReduceState :=
  let cleaned := clean_uri_segment val
  match findRel cleaned st.kept with
  | some (true, e) => ⟨addKept (st.kept.erase e) cleaned, st.out ++ [val]⟩
  | some (false, _) => st
  | none => ⟨addKept st.kept cleaned, st.out ++ [val]⟩

/-- Composite-identifier reduction (lines 189-218): sort by descending raw
length, then run the prefix filter. -/
def reduceValues (values : List String) : List String :=
  ((sortByLenDesc values).foldl reduceStep ⟨[], []⟩).out

/-- `re.match(r'^[A-Z0-9]{5,}$', s)` (lines 311/321/330): a run of at
least five ASCII uppercase letters or digits spanning the string; Python's
`$` also matches just before a single trailing newline. -/
def isCodeChar (c : Char) : Bool := ('A' ≤ c && c ≤ 'Z') || c.isDigit

/-- Whole-string form of the code-detection regex. -/
def codeRun (l : List Char) : Bool := decide (5 ≤ l.length) && l.all isCodeChar

/-- `re.match(r'^[A-Z0-9]{5,}$', s)` as a Boolean. -/
def matchesCodePattern (s : String) : Bool :=
  codeRun s.data ||
    (match s.data.getLast? with
     | some c => c == '\n' && codeRun s.data.dropLast
     | none => false)

/-- Triples added when one literal value is attached to one target node in
the related-entity pass: the property triple, plus the secondary
`drber:code` triple when the heuristic fires (lines 306-312 etc.). -/
def attachPair (propUri dt t v : String) : List Triple :=
  ⟨t, propUri, .lit v (some dt)⟩ ::
    (if matchesCodePattern v then [⟨t, drberCode, .lit v none⟩] else [])

/-- Triples produced by the value/target correspondence logic of the
related-entity pass (lines 300-331): broadcast a single value over a
mismatched number of targets; otherwise walk `enumerate(targets)` guarded
by `i < len(values)`, the equal-length branch additionally skipping falsy
(empty) values. -/
def attachTriples (propUri dt : String) (values targets : List String) : List Triple :=
  if values.length ≠ targets.length ∧ 0 < values.length then
    if values.length = 1 then
      targets.flatMap (fun t => attachPair propUri dt t (values.headD ""))
    else
      targets.enum.flatMap (fun it =>
        match values.get? it.1 with
        | some v => attachPair propUri dt it.2 v
        | none => [])
  else
    targets.enum.flatMap (fun it =>
      match values.get? it.1 with
      | some v => if v = "" then [] else attachPair propUri dt it.2 v
      | none => [])

/-- The `multivalued_delimiters_dict` lookup (line 121): the dict
comprehension keeps the last binding of a repeated column. -/
def lookupDelimCfg (cfgs : List (String × String)) (col : String) : Option String :=
  (cfgs.reverse.find? (fun p => p.1 == col)).map (fun p => p.2)

/-- Row-local entity cache lookup (`current_row_entities_cache`). -/
def lookupRowCache (rc : List (String × List String)) (k : String) : Option (List String) :=
  (rc.find? (fun p => p.1 == k)).map (fun p => p.2)

/-- Conversion state threaded across rows: the graph and the global
related-entity cache (`global_entity_uris_cache`, line 114), modelled as
the set of (related-entity class tag, minted URI) pairs. -/
structure ConvState where
  g : Graph
  cache : List (String × String)

/-- Discriminator value for one related entity (lines 237-259): use the
configured identifier column when present, distinct from the source column
and non-null in the row, taking the positionally matching split value when
that column is itself multivalued. -/
def relatedIdValue (row : Row) (colName : String) (cfg : MappingConfig)
    (delims : List (String × String)) (i : Nat) (value : String) : String :=
  match cfg.related_entity_id_col with
  | none => value
  | some idCol =>
    if idCol = colName then value
    else
      match rowGet row idCol with
      | none => value
      | some .na => value
      | some (.str rawId) =>
        match lookupDelimCfg delims idCol with
        | some d =>
          match (splitValues rawId true d).get? i with
          | some p => p
          | none => value
        | none => rawId

/-- Processing of one value of an object-property column (lines 227-276):
declare the related class, mint the URI, create type and label triples on
a global-cache miss, link from the main entity, and record the URI. -/
def processObjectValue (row : Row) (mainUri : String) (delims : List (String × String))
    (colName : String) (cfg : MappingConfig) (i : Nat) (value : String)
    (st : ConvState) (acc : List String) : ConvState × List String :=
  let typeStr := effectiveTypeStr cfg.related_entity_type_uri
  let g1 := addTriple st.g ⟨typeStr, rdfType, .uri owlClass⟩
  let idVal := relatedIdValue row colName cfg delims i value
  let uri := relatedEntityUri typeStr idVal
  let g2 :=
    if (typeStr, uri) ∈ st.cache then g1
    else addTriple (addTriple g1 ⟨uri, rdfType, .uri typeStr⟩) ⟨uri, rdfsLabel, .lit idVal none⟩
  let cache2 :=
    if (typeStr, uri) ∈ st.cache then st.cache else st.cache ++ [(typeStr, uri)]
  let g3 := addTriple g2 ⟨mainUri, cfg.prop_uri, .uri uri⟩
  (⟨g3, cache2⟩, acc ++ [uri])

/-- Main-entity pass for one column (lines 169-281): skip null cells,
split, reduce object values, then emit literal triples or mint related
entities.  Returns the updated state and, for an object column that
produced entities, the row-cache entry to record. -/
def processMainCol (row : Row) (mainUri : String) (delims : List (String × String))
    (colName : String) (cfg : MappingConfig) (st : ConvState) :
    ConvState × Option (String × List String) :=
  match rowGet row colName with
  | none => (st, none)
  | some .na => (st, none)
  | some (.str raw) =>
    let vs0 := splitValues raw (cfg.is_multivalued.getD false) (cfg.delimiter.getD ";")
    let vs := if cfg.mapping_type = "object_property" then reduceValues vs0 else vs0
    if cfg.mapping_type = "literal" then
      let dt := cfg.datatype.getD xsdString
      ({ st with
         g := vs.foldl (fun g v => addTriple g ⟨mainUri, cfg.prop_uri, .lit v (some dt)⟩) st.g },
       none)
    else if cfg.mapping_type = "object_property" then
      let res := vs.enum.foldl
        (fun (p : ConvState × List String) iv =>
          processObjectValue row mainUri delims colName cfg iv.1 iv.2 p.1 p.2)
        (st, [])
      (res.1, if res.2.isEmpty then none else some (colName, res.2))
    else (st, none)

/-- One step of the main-entity pass fold: advance the state and record a
row-cache entry when the column produced related entities (line 280). -/
def mainStep (row : Row) (mainUri : String) (delims : List (String × String))
    (p : ConvState × List (String × List String)) (pc : String × MappingConfig) :
    ConvState × List (String × List String) :=
  ((processMainCol row mainUri delims pc.1 pc.2 p.1).1,
   match (processMainCol row mainUri delims pc.1 pc.2 p.1).2 with
   | some e => p.2 ++ [e]
   | none => p.2)

/-- The whole main-entity pass of a row: fold over the main-entity
mappings, accumulating the row-local entity cache. -/
def mainPass (row : Row) (mainUri : String) (delims : List (String × String))
    (mains : List (String × MappingConfig)) (st : ConvState) :
    ConvState × List (String × List String) :=
  mains.foldl (mainStep row mainUri delims) (st, [])

/-- Related-entity pass for one column (lines 285-331): skip unless the
applies-to column produced entities in this row; otherwise stringify the
cell (with no null check — `str(nan)` is "nan"), split it, and attach via
`attachTriples`.  A column absent from the row would raise `KeyError` in
Python (line 295); the model treats it like a null cell, which is
unreachable for well-formed configurations whose mapped columns exist. -/
def processRelatedCol (row : Row) (rowCache : List (String × List String))
    (colName : String) (cfg : MappingConfig) (g : Graph) : Graph :=
  match lookupRowCache rowCache (cfg.applies_to_entity.getD "main_entity") with
  | none => g
  | some targets =>
    let raw := ((rowGet row colName).getD Cell.na).pyStr
    let values := splitValues raw (cfg.is_multivalued.getD false) (cfg.delimiter.getD ";")
    addTriples g (attachTriples cfg.prop_uri (cfg.datatype.getD xsdString) values targets)

/-- `main_id_value` after the blank/null fallback (lines 134-137),
stringified (the argument of `clean_uri_segment` and of the label). -/
def mainIdString (row : Row) (idCol : String) (index : Nat) : String :=
  match rowGet row idCol with
  | none => "record_" ++ Nat.repr index
  | some .na => "record_" ++ Nat.repr index
  | some (.str s) => if pyStrip s = "" then "record_" ++ Nat.repr index else s

/-- `main_entity_id_segment` (line 140). -/
def mainSegment (row : Row) (idCol : String) (index : Nat) : String :=
  clean_uri_segment (mainIdString row idCol index)

/-- Classification of the mapping dict into main-entity and related-entity
property mappings (lines 155-164), preserving dict order. -/
def classifyMappings (maps : List (String × MappingConfig)) :
    List (String × MappingConfig) × List (String × MappingConfig) :=
  (maps.filter (fun p => p.2.applies_to_entity.getD "main_entity" == "main_entity"),
   maps.filter (fun p => p.2.applies_to_entity.getD "main_entity" != "main_entity"))

/-- Processing of one dataframe row (lines 125-331). -/
def processRow (mainTypeUri idCol : String) (delims : List (String × String))
    (maps : List (String × MappingConfig)) (index : Nat) (row : Row)
    (st : ConvState) : ConvState :=
  let mainIdVal := mainIdString row idCol index
  let mainUri := DRBER ++ typeLocalSegment mainTypeUri ++ "/" ++ mainSegment row idCol index
  let g0 := addTriple (addTriple st.g ⟨mainUri, rdfType, .uri mainTypeUri⟩)
    ⟨mainUri, rdfsLabel, .lit mainIdVal none⟩
  let mp := mainPass row mainUri delims (classifyMappings maps).1 { st with g := g0 }
  let g2 := (classifyMappings maps).2.foldl
    (fun g pc => processRelatedCol row mp.2 pc.1 pc.2 g) mp.1.g
  { mp.1 with g := g2 }

/-- `convertir_dataframe_a_rdf` (lines 65-333): declare the main class,
then fold the rows in order, threading the graph and the global cache. -/
def convertir_dataframe_a_rdf (df : List Row) (mainTypeUri idCol : String)
    (delims : List (String × String)) (maps : List (String × MappingConfig)) : Graph :=
  let g0 := addTriple [] ⟨mainTypeUri, rdfType, .uri owlClass⟩
  (df.enum.foldl
    (fun st ir => processRow mainTypeUri idCol delims maps ir.1 ir.2 st)
    ⟨g0, []⟩).g

/-! Definitions written from the words of the claims (for refinement
comparisons with the code-derived definitions above). -/

/-- Search for the first kept (sanitized form, value) pair prefix-related
to the candidate form `c`; claim-side counterpart of `findRel` over pairs
that remember which value owns each kept form. -/
def findRelPairs (c : String) : List (String × String) → Option (Bool × String)
  | [] => none
  | p :: ps =>
    if pyStartsWith c p.1 && c != p.1 then some (true, p.1)
    else if pyStartsWith p.1 c && p.1 != c then some (false, p.1)
    else findRelPairs c ps

/-- Composite-identifier reduction exactly as claim C3 words it: when a
kept form is a strict prefix of the candidate's sanitized form, the kept
form "is replaced by the candidate (the superseded value produces no
entity)" — so the superseded pair is replaced wholesale and its value
disappears from the output. -/
def specReduce (values : List String) : List String :=
  ((sortByLenDesc values).foldl
    (fun kept val =>
      let c := clean_uri_segment val
      match findRelPairs c kept with
      | some (true, e) => kept.map (fun p => if p.1 = e then (c, val) else p)
      | some (false, _) => kept
      | none => kept ++ [(c, val)])
    ([] : List (String × String))).map (fun p => p.2)

/-- Prefix relation between the candidate's sanitized form `c` and one
kept form `e`: `some true` when `e` is a strict prefix of `c` (supersede),
`some false` when `c` is a strict prefix of `e` (candidate redundant). -/
def relOf (c e : String) : Option Bool :=
  if pyStartsWith c e && c != e then some true
  else if pyStartsWith e c && e != c then some false
  else none

/-- One reduction step as the amended claim C3 describes it, phrased with
`List.findSome?`: the first prefix-related kept form decides; a supersede
replaces only the kept form, the output keeps every previously appended
value. -/
def amendedReduceStep (st : ReduceState) (val : String) : ReduceState :=
  let c := clean_uri_segment val
  match st.kept.findSome? (fun e => (relOf c e).map (fun b => (b, e))) with
  | some (true, e) =>
    ⟨st.kept.erase e ++ (if c ∈ st.kept.erase e then [] else [c]), st.out ++ [val]⟩
  | some (false, _) => st
  | none => ⟨st.kept ++ (if c ∈ st.kept then [] else [c]), st.out ++ [val]⟩

/-- Reduction as the amended claim C3 describes it. -/
def amendedReduce (values : List String) : List String :=
  ((sortByLenDesc values).foldl amendedReduceStep ⟨[], []⟩).out

/-- Value/target correspondence exactly as claim C7 words it: broadcast a
single value over more than one target, otherwise zip positionally up to
the shorter list (every matched pair is attached). -/
def claimAttach (propUri dt : String) (values targets : List String) : List Triple :=
  if values.length = 1 ∧ 1 < targets.length then
    targets.flatMap (fun t => attachPair propUri dt t (values.headD ""))
  else
    (targets.zip values).flatMap (fun tv => attachPair propUri dt tv.1 tv.2)

/-- Value/target correspondence as the amended claim C7 describes it: as
`claimAttach`, except that when the two lists have equal length a matched
pair whose value is the empty string attaches nothing. -/
def amendedAttach (propUri dt : String) (values targets : List String) : List Triple :=
  if values.length = 1 ∧ values.length ≠ targets.length then
    targets.flatMap (fun t => attachPair propUri dt t (values.headD ""))
  else if values.length = targets.length then
    (targets.zip values).flatMap (fun tv =>
      if tv.2 = "" then [] else attachPair propUri dt tv.1 tv.2)
  else
    (targets.zip values).flatMap (fun tv => attachPair propUri dt tv.1 tv.2)

/-! Concrete inputs used by counterexamples and instance checks. -/

/-- One row whose two object-property columns use distinct class tags with
the same local name (`http://x#P` and `http://y#P`) and the same value. -/
def dfTwoTags : List Row := [[("A", Cell.str "v"), ("B", Cell.str "v")]]

/-- Mappings for `dfTwoTags`. -/
def mapsTwoTags : List (String × MappingConfig) :=
  [("A", { prop_uri := "http://e/p1", mapping_type := "object_property",
           related_entity_type_uri := some "http://x#P" }),
   ("B", { prop_uri := "http://e/p2", mapping_type := "object_property",
           related_entity_type_uri := some "http://y#P" })]

/-- The graph produced from `dfTwoTags`. -/
def gTwoTags : Graph := convertir_dataframe_a_rdf dfTwoTags "http://ex#Main" "id" [] mapsTwoTags

/-! Lemmas about the sanitizer `clean_uri_segment`. -/

theorem mem_collapseAux (l : List Char) :
    ∀ (b : Bool) (c : Char), c ∈ collapseAux b l → isKeptChar c = true := by
  induction l with
  | nil => intro b c h; simp [collapseAux] at h
  | cons a as ih =>
    intro b c h
    rw [collapseAux] at h
    by_cases ha : isKeptChar a
    · rw [if_pos ha] at h
      rcases List.mem_cons.mp h with rfl | h'
      · exact ha
      · exact ih false c h'
    · rw [if_neg ha] at h
      cases b with
      | true => exact ih true c (by simpa using h)
      | false =>
        simp only [Bool.false_eq_true, if_false] at h
        rcases List.mem_cons.mp h with rfl | h'
        · decide
        · exact ih true c h'

theorem collapseAux_of_kept (l : List Char) (hl : ∀ c ∈ l, isKeptChar c = true) :
    ∀ b, collapseAux b l = l := by
  induction l with
  | nil => intro _; rfl
  | cons a as ih =>
    intro b
    have ha : isKeptChar a = true := hl a (List.mem_cons_self a as)
    rw [collapseAux, if_pos ha, ih (fun c hc => hl c (List.mem_cons_of_mem a hc)) false]

theorem dropWhile_head_false (p : Char → Bool) (l : List Char) :
    ∀ c, (l.dropWhile p).head? = some c → p c = false := by
  induction l with
  | nil => intro c h; simp [List.dropWhile] at h
  | cons a as ih =>
    intro c h
    by_cases hp : p a
    · rw [List.dropWhile_cons, if_pos hp] at h
      exact ih c h
    · rw [List.dropWhile_cons, if_neg hp] at h
      simp only [List.head?_cons, Option.some.injEq] at h
      subst h
      exact Bool.eq_false_iff.mpr hp

theorem getLast?_dropWhile (p : Char → Bool) (l : List Char)
    (h : l.dropWhile p ≠ []) : (l.dropWhile p).getLast? = l.getLast? := by
  induction l with
  | nil => simp [List.dropWhile] at h
  | cons a as ih =>
    by_cases hp : p a
    · rw [List.dropWhile_cons, if_pos hp] at h ⊢
      have has : as ≠ [] := by
        intro he
        rw [he] at h
        simp [List.dropWhile] at h
      rw [ih h]
      cases as with
      | nil => exact absurd rfl has
      | cons b bs => rw [List.getLast?_cons_cons]
    · rw [List.dropWhile_cons, if_neg hp]

theorem mem_of_mem_stripEnds (p : Char → Bool) (l : List Char) (c : Char)
    (h : c ∈ stripEnds p l) : c ∈ l := by
  unfold stripEnds at h
  rw [List.mem_reverse] at h
  have h1 : c ∈ (l.dropWhile p).reverse := (List.dropWhile_sublist _).subset h
  rw [List.mem_reverse] at h1
  exact (List.dropWhile_sublist _).subset h1

theorem dropWhile_eq_self_of_head (p : Char → Bool) (l : List Char)
    (h : ∀ c, l.head? = some c → p c = false) : l.dropWhile p = l := by
  cases l with
  | nil => rfl
  | cons a as =>
    have := h a rfl
    rw [List.dropWhile_cons, if_neg (by simp [this])]

theorem stripEnds_noop (p : Char → Bool) (l : List Char)
    (hh : ∀ c, l.head? = some c → p c = false)
    (hl : ∀ c, l.getLast? = some c → p c = false) :
    stripEnds p l = l := by
  unfold stripEnds
  rw [dropWhile_eq_self_of_head p l hh]
  rw [dropWhile_eq_self_of_head p l.reverse
    (fun c hc => hl c (by rwa [List.head?_reverse] at hc))]
  exact List.reverse_reverse l

theorem stripEnds_head_false (p : Char → Bool) (l : List Char) (c : Char)
    (h : (stripEnds p l).head? = some c) : p c = false := by
  unfold stripEnds at h
  rw [List.head?_reverse] at h
  have hne : (l.dropWhile p).reverse.dropWhile p ≠ [] := by
    intro he
    rw [he] at h
    simp at h
  rw [getLast?_dropWhile p _ hne, List.getLast?_reverse] at h
  exact dropWhile_head_false p l c h

theorem stripEnds_getLast_false (p : Char → Bool) (l : List Char) (c : Char)
    (h : (stripEnds p l).getLast? = some c) : p c = false := by
  unfold stripEnds at h
  rw [List.getLast?_reverse] at h
  exact dropWhile_head_false p _ c h

theorem clean_fixed (l : List Char) (hne : l ≠ [])
    (hkept : ∀ c ∈ l, isKeptChar c = true)
    (hhead : ∀ c, l.head? = some c → ((c == '_') = false ∧ (c == '-') = false))
    (hlast : ∀ c, l.getLast? = some c → ((c == '_') = false ∧ (c == '-') = false)) :
    clean_uri_segment (String.mk l) = String.mk l := by
  unfold clean_uri_segment
  have h0 : (String.mk l).data = l := rfl
  rw [h0]
  rw [show collapseRuns l = l from collapseAux_of_kept l hkept false]
  rw [stripEnds_noop _ l (fun c hc => (hhead c hc).1) (fun c hc => (hlast c hc).1)]
  rw [stripEnds_noop _ l (fun c hc => (hhead c hc).2) (fun c hc => (hlast c hc).2)]
  cases l with
  | nil => exact absurd rfl hne
  | cons a as => rfl

theorem clean_output_cases (s : String) :
    clean_uri_segment s = "unknown" ∨
    ∃ l, clean_uri_segment s = String.mk l ∧ l ≠ [] ∧
      (∀ c ∈ l, isKeptChar c = true) ∧
      (∀ c, l.head? = some c → (c == '-') = false) ∧
      (∀ c, l.getLast? = some c → (c == '-') = false) := by
  unfold clean_uri_segment
  set L := stripEnds (fun c => c == '-')
    (stripEnds (fun c => c == '_') (collapseRuns s.data)) with hL
  by_cases h : L.isEmpty
  · left
    rw [if_pos h]
  · right
    refine ⟨L, by rw [if_neg h], ?_, ?_, ?_, ?_⟩
    · intro he
      rw [he] at h
      exact h rfl
    · intro c hc
      have h1 := mem_of_mem_stripEnds _ _ c hc
      have h2 := mem_of_mem_stripEnds _ _ c h1
      exact mem_collapseAux _ false c h2
    · exact fun c hc => stripEnds_head_false _ _ c hc
    · exact fun c hc => stripEnds_getLast_false _ _ c hc

/-- C4, counterexample: `clean_uri_segment` is not idempotent.  On the
input "-_-" the first application yields "_" (the `strip('_')` pass runs
before `strip('-')` and cannot see the underscore it uncovers), while the
second application yields "unknown". -/
theorem C4_counterexample :
    clean_uri_segment (clean_uri_segment "-_-") ≠ clean_uri_segment "-_-" := by decide

/-- C4, amended: the sanitizer is idempotent on every input whose
sanitized form neither begins nor ends with an underscore (the only
escape from idempotence is an underscore uncovered at an end by the final
`strip('-')` pass, as in the counterexample). -/
theorem C4_amended (s : String)
    (h1 : (clean_uri_segment s).data.head? ≠ some '_')
    (h2 : (clean_uri_segment s).data.getLast? ≠ some '_') :
    clean_uri_segment (clean_uri_segment s) = clean_uri_segment s := by
  rcases clean_output_cases s with h | ⟨l, hs, hne, hkept, hhd, hlst⟩
  · rw [h]
    decide
  · rw [hs] at h1 h2 ⊢
    have hd : (String.mk l).data = l := rfl
    rw [hd] at h1 h2
    refine clean_fixed l hne hkept ?_ ?_
    · intro c hc
      refine ⟨?_, hhd c hc⟩
      by_cases hcu : c = '_'
      · exact absurd (hcu ▸ hc) h1
      · exact beq_eq_false_iff_ne.mpr hcu
    · intro c hc
      refine ⟨?_, hlst c hc⟩
      by_cases hcu : c = '_'
      · exact absurd (hcu ▸ hc) h2
      · exact beq_eq_false_iff_ne.mpr hcu

/-- C4 witness: a concrete instance of the amended idempotence theorem. -/
theorem C4_amended_witness :
    clean_uri_segment (clean_uri_segment "a b") = clean_uri_segment "a b" :=
  C4_amended "a b" (by decide) (by decide)

/-! Lemmas about the decimal digits of `Nat.repr`, needed because the
synthetic fallback id `record_<index>` passes through the sanitizer. -/

theorem digitChar_isDigit (m : Nat) (h : m < 10) : (Nat.digitChar m).isDigit = true := by
  interval_cases m <;> decide

theorem toDigitsCore_digits (fuel : Nat) :
    ∀ (n : Nat) (acc : List Char), (∀ c ∈ acc, c.isDigit = true) →
      ∀ c ∈ Nat.toDigitsCore 10 fuel n acc, c.isDigit = true := by
  induction fuel with
  | zero => intro n acc hacc c hc; exact hacc c hc
  | succ f ih =>
    intro n acc hacc c hc
    simp only [Nat.toDigitsCore] at hc
    have hstep : ∀ d ∈ Nat.digitChar (n % 10) :: acc, d.isDigit = true := by
      intro d hd
      rcases List.mem_cons.mp hd with rfl | hd'
      · exact digitChar_isDigit _ (Nat.mod_lt n (by norm_num))
      · exact hacc d hd'
    split at hc
    · exact hstep c hc
    · exact ih (n / 10) _ hstep c hc

theorem toDigitsCore_length (fuel : Nat) :
    ∀ (n : Nat) (acc : List Char),
      acc.length ≤ (Nat.toDigitsCore 10 fuel n acc).length := by
  induction fuel with
  | zero => intro n acc; exact le_refl _
  | succ f ih =>
    intro n acc
    simp only [Nat.toDigitsCore]
    split
    · simp
    · exact le_trans (by simp) (ih (n / 10) (Nat.digitChar (n % 10) :: acc))

theorem repr_data_digits (n : Nat) :
    (Nat.repr n).data ≠ [] ∧ ∀ c ∈ (Nat.repr n).data, c.isDigit = true := by
  have hdata : (Nat.repr n).data = Nat.toDigitsCore 10 (n + 1) n [] := rfl
  constructor
  · rw [hdata]
    intro he
    have h1 := toDigitsCore_length n (n / 10) [Nat.digitChar (n % 10)]
    simp only [Nat.toDigitsCore] at he
    split at he
    · exact List.cons_ne_nil _ _ he
    · rw [he] at h1
      simp at h1
  · rw [hdata]
    exact toDigitsCore_digits (n + 1) n [] (by intro c hc; cases hc)

theorem isKeptChar_of_isDigit (c : Char) (h : c.isDigit = true) : isKeptChar c = true := by
  simp [isKeptChar, Char.isAlphanum, h]

theorem clean_record_index (n : Nat) :
    clean_uri_segment ("record_" ++ Nat.repr n) = "record_" ++ Nat.repr n := by
  obtain ⟨hne, hdig⟩ := repr_data_digits n
  have hdata : ("record_" ++ Nat.repr n).data = "record_".data ++ (Nat.repr n).data :=
    String.data_append _ _
  have hrec : "record_".data = 'r' :: "ecord_".data := rfl
  have key := clean_fixed (("record_" ++ Nat.repr n).data) ?_ ?_ ?_ ?_
  · exact key
  · rw [hdata, hrec]
    exact List.cons_ne_nil _ _
  · intro c hc
    rw [hdata] at hc
    have hrecKept : ∀ d ∈ "record_".data, isKeptChar d = true := by decide
    rcases List.mem_append.mp hc with hc | hc
    · exact hrecKept c hc
    · exact isKeptChar_of_isDigit c (hdig c hc)
  · intro c hc
    rw [hdata, hrec, List.cons_append, List.head?_cons] at hc
    injection hc with hc
    subst hc
    decide
  · intro c hc
    rw [hdata, List.getLast?_append] at hc
    have hmem : c ∈ (Nat.repr n).data := by
      cases hD : (Nat.repr n).data.getLast? with
      | none => exact absurd (List.getLast?_eq_none_iff.mp hD) hne
      | some d =>
        rw [hD] at hc
        simp only [Option.or_some, Option.some.injEq] at hc
        subst hc
        exact List.mem_of_getLast?_eq_some hD
    have hd := hdig c hmem
    constructor
    · by_cases hcu : c = '_'
      · rw [hcu] at hd
        exact absurd hd (by decide)
      · exact beq_eq_false_iff_ne.mpr hcu
    · by_cases hcu : c = '-'
      · rw [hcu] at hd
        exact absurd hd (by decide)
      · exact beq_eq_false_iff_ne.mpr hcu

/-- C5 (confirmed): for every row whose main-id column value is missing,
null, or blank after trimming, the minted main node's discriminator
segment is exactly `record_<index>` for the row's position `index`. -/
theorem C5_fallback_id (row : Row) (idCol : String) (index : Nat)
    (h : rowGet row idCol = none ∨ rowGet row idCol = some Cell.na ∨
         ∃ s, rowGet row idCol = some (Cell.str s) ∧ pyStrip s = "") :
    mainSegment row idCol index = "record_" ++ Nat.repr index := by
  have hid : mainIdString row idCol index = "record_" ++ Nat.repr index := by
    unfold mainIdString
    rcases h with h | h | ⟨s, h, hs⟩ <;> rw [h]
    simp [hs]
  unfold mainSegment
  rw [hid]
  exact clean_record_index index

/-- C5 witness: an absent id column at row position 3 yields the
discriminator segment `record_3`. -/
theorem C5_fallback_id_witness :
    mainSegment [] "id" 3 = "record_" ++ Nat.repr 3 :=
  C5_fallback_id [] "id" 3 (Or.inl rfl)

/-! Lemmas about the composite-identifier reduction (claim C3). -/

theorem addKept_eq (l : List String) (c : String) :
    addKept l c = l ++ (if c ∈ l then [] else [c]) := by
  unfold addKept
  by_cases h : c ∈ l <;> simp [h]

theorem findRel_eq_findSome? (c : String) (l : List String) :
    findRel c l = l.findSome? (fun e => (relOf c e).map (fun b => (b, e))) := by
  induction l with
  | nil => rfl
  | cons e es ih =>
    rw [findRel, List.findSome?_cons]
    have hmap : (relOf c e).map (fun b => (b, e))
        = if pyStartsWith c e && c != e then some (true, e)
          else if pyStartsWith e c && e != c then some (false, e) else none := by
      unfold relOf
      by_cases h1 : (pyStartsWith c e && c != e) = true
      · rw [if_pos h1, if_pos h1]
        rfl
      · rw [if_neg h1, if_neg h1]
        by_cases h2 : (pyStartsWith e c && e != c) = true
        · rw [if_pos h2, if_pos h2]
          rfl
        · rw [if_neg h2, if_neg h2]
          rfl
    rw [hmap]
    by_cases h1 : (pyStartsWith c e && c != e) = true
    · rw [if_pos h1, if_pos h1]
    · rw [if_neg h1, if_neg h1]
      by_cases h2 : (pyStartsWith e c && e != c) = true
      · rw [if_pos h2, if_pos h2]
      · rw [if_neg h2, if_neg h2]
        exact ih

theorem reduceStep_eq_amended (st : ReduceState) (val : String) :
    reduceStep st val = amendedReduceStep st val := by
  simp only [reduceStep, amendedReduceStep]
  rw [← findRel_eq_findSome?]
  rcases h : findRel (clean_uri_segment val) st.kept with _ | ⟨b, e⟩
  · simp [h, addKept_eq]
  · cases b <;> simp [h, addKept_eq]

/-- C3, counterexample: the claim's supersede clause says "the superseded
value produces no entity", but the code only removes the superseded
sanitized form from the comparison set — the value it belonged to has
already been appended to the output and still produces its entity.  With
the cell values `["a!", "ab"]` (equal raw lengths, so the stable sort
keeps their order), `"a!"` sanitizes to `"a"`, which `"ab"` then
supersedes: the code keeps both values, while the claim's own reduction
(`specReduce`, transcribed from its words) keeps only `"ab"`. -/
theorem C3_counterexample :
    reduceValues ["a!", "ab"] = ["a!", "ab"] ∧
    specReduce ["a!", "ab"] = ["ab"] ∧
    reduceValues ["a!", "ab"] ≠ specReduce ["a!", "ab"] := by decide

/-- C3, amended (the reduction processes values longest first and compares
sanitized forms against the kept set; a kept strict prefix of the
candidate is replaced *in the kept set only* — the superseded value keeps
the entity it already produced; a candidate that is a strict prefix of a
kept form is discarded; otherwise the candidate is kept): the code
reduction coincides with the amended description `amendedReduce`, and on
the spec's own example cell "Smith;Smith_AUTH99" only `"Smith_AUTH99"`
survives. -/
theorem C3_amended :
    (∀ values, reduceValues values = amendedReduce values) ∧
    reduceValues ["Smith", "Smith_AUTH99"] = ["Smith_AUTH99"] := by
  constructor
  · intro values
    unfold reduceValues amendedReduce
    have h : reduceStep = amendedReduceStep := by
      funext st val
      exact reduceStep_eq_amended st val
    rw [h]
  · decide

/-! Lemmas about the related-entity value/target correspondence (C7). -/

theorem enumFrom_guard_eq_zip (f : String → String → List Triple) (targets : List String) :
    ∀ (k : Nat) (values : List String),
      ((targets.enumFrom k).flatMap (fun it =>
         match values.get? it.1 with
         | some v => f it.2 v
         | none => [])) =
      ((targets.zip (values.drop k)).flatMap (fun tv => f tv.1 tv.2)) := by
  induction targets with
  | nil => intro k values; rfl
  | cons t ts ih =>
    intro k values
    have hcons : (t :: ts).enumFrom k = (k, t) :: ts.enumFrom (k + 1) := rfl
    rw [hcons, List.flatMap_cons]
    cases hv : values.get? k with
    | none =>
      have hlen : values.length ≤ k := List.get?_eq_none.mp hv
      have hd : values.drop k = [] := List.drop_eq_nil_of_le hlen
      have hd2 : values.drop (k + 1) = [] := List.drop_eq_nil_of_le (le_trans hlen (Nat.le_succ k))
      rw [ih (k + 1) values, hd, hd2]
      simp [hv]
    | some v =>
      have hk : k < values.length := by
        by_contra hge
        rw [List.get?_eq_none.mpr (Nat.le_of_not_lt hge)] at hv
        cases hv
      have hd : values.drop k = v :: values.drop (k + 1) := by
        rw [List.drop_eq_getElem_cons hk]
        have h2 : values.get? k = values[k]? := List.get?_eq_getElem? values k
        rw [h2, List.getElem?_eq_getElem hk] at hv
        injection hv with hv
        rw [hv]
      rw [ih (k + 1) values, hd, List.zip_cons_cons, List.flatMap_cons]

/-- C7, counterexample: with a single target and the single split value
`""` (a non-multivalued dependent column over an empty cell), the
equal-length branch of the code skips the falsy value and attaches
nothing, while the claim's zip ("values and targets are zipped
positionally up to the shorter length") attaches the empty literal. -/
theorem C7_counterexample :
    attachTriples "http://e/p" xsdString [""] ["http://e/u"] = [] ∧
    claimAttach "http://e/p" xsdString [""] ["http://e/u"] =
      [⟨"http://e/u", "http://e/p", .lit "" (some xsdString)⟩] ∧
    attachTriples "http://e/p" xsdString [""] ["http://e/u"] ≠
      claimAttach "http://e/p" xsdString [""] ["http://e/u"] := by decide

/-- C7, amended: the related-entity pass broadcasts a single split value
to every target when the target count differs from one; otherwise values
and targets are zipped positionally up to the shorter length with
unmatched targets receiving nothing — except that when the two lists have
equal length, a matched pair whose value is the empty string attaches
nothing (this arises only for a non-multivalued empty cell).  Stated as:
the code's correspondence logic coincides with `amendedAttach`. -/
theorem guard_nil (g : String → String → List Triple) (targets : List String) :
    ∀ k : Nat,
      ((targets.enumFrom k).flatMap fun it =>
         match ([] : List String).get? it.1 with
         | some v => g it.2 v
         | none => []) = [] := by
  induction targets with
  | nil => intro k; rfl
  | cons t ts ih =>
    intro k
    have hcons : (t :: ts).enumFrom k = (k, t) :: ts.enumFrom (k + 1) := rfl
    rw [hcons, List.flatMap_cons, ih (k + 1)]
    rfl

theorem C7_amended (propUri dt : String) (values targets : List String) :
    attachTriples propUri dt values targets = amendedAttach propUri dt values targets := by
  unfold attachTriples amendedAttach
  by_cases h1 : values.length = targets.length
  · have hc1 : ¬(values.length ≠ targets.length ∧ 0 < values.length) := by simp [h1]
    have hc2 : ¬(values.length = 1 ∧ values.length ≠ targets.length) := by simp [h1]
    rw [if_neg hc1, if_neg hc2, if_pos h1]
    have h := enumFrom_guard_eq_zip
      (fun t v => if v = "" then [] else attachPair propUri dt t v) targets 0 values
    rw [List.drop_zero] at h
    exact h
  · by_cases h2 : values.length = 1
    · have hc1 : values.length ≠ targets.length ∧ 0 < values.length := ⟨h1, by omega⟩
      rw [if_pos hc1, if_pos h2, if_pos ⟨h2, h1⟩]
    · by_cases h3 : values.length = 0
      · obtain rfl : values = [] := List.length_eq_zero.mp h3
        rw [if_neg (show ¬(([] : List String).length ≠ targets.length ∧
              0 < ([] : List String).length) by simp)]
        rw [if_neg (show ¬(([] : List String).length = 1 ∧
              ([] : List String).length ≠ targets.length) by simp)]
        rw [if_neg h1]
        rw [show targets.enum = targets.enumFrom 0 from rfl,
          guard_nil (fun t v => if v = "" then [] else attachPair propUri dt t v) targets 0]
        rw [List.zip_nil_right]
        rfl
      · have hc1 : values.length ≠ targets.length ∧ 0 < values.length :=
          ⟨h1, Nat.pos_of_ne_zero h3⟩
        rw [if_pos hc1, if_neg h2]
        rw [if_neg (show ¬(values.length = 1 ∧ values.length ≠ targets.length) from
              fun hx => h2 hx.1)]
        rw [if_neg h1]
        have h := enumFrom_guard_eq_zip (fun t v => attachPair propUri dt t v) targets 0 values
        rw [List.drop_zero] at h
        exact h

/-! Lemmas for the code-detection heuristic (C8). -/

theorem mem_attachPair_inv (p dt t v t' v' : String)
    (h : Triple.mk t p (.lit v (some dt)) ∈ attachPair p dt t' v') : t = t' ∧ v = v' := by
  unfold attachPair at h
  rcases List.mem_cons.mp h with he | h'
  · injection he with h1 h2 h3
    injection h3 with h4 h5
    exact ⟨h1, h4⟩
  · by_cases hm : matchesCodePattern v' = true
    · rw [if_pos hm] at h'
      rcases List.mem_cons.mp h' with he | h0
      · injection he with h1 h2 h3
        injection h3 with h4 h5
        exact Option.noConfusion h5
      · cases h0
    · rw [if_neg (by simpa using hm)] at h'
      cases h'

theorem code_mem_attachPair (p dt t v : String) (h : matchesCodePattern v = true) :
    Triple.mk t drberCode (.lit v none) ∈ attachPair p dt t v := by
  unfold attachPair
  rw [if_pos h]
  exact List.mem_cons_of_mem _ (List.mem_cons_self _ _)

/-- C8 (confirmed): in the related-entity pass, whenever a literal value
`v` was attached to a target node `t` and `v` matches the all-caps
alphanumeric pattern of length at least five, the same value is also
attached to `t` as the distinct `drber:code` property (a plain literal). -/
theorem C8_code_heuristic (propUri dt v t : String) (values targets : List String)
    (hmem : Triple.mk t propUri (.lit v (some dt)) ∈ attachTriples propUri dt values targets)
    (hcode : matchesCodePattern v = true) :
    Triple.mk t drberCode (.lit v none) ∈ attachTriples propUri dt values targets := by
  unfold attachTriples at hmem ⊢
  by_cases hc1 : values.length ≠ targets.length ∧ 0 < values.length
  · rw [if_pos hc1] at hmem ⊢
    by_cases hc2 : values.length = 1
    · rw [if_pos hc2] at hmem ⊢
      obtain ⟨a, ha, hin⟩ := List.mem_flatMap.mp hmem
      obtain ⟨h1, h2⟩ := mem_attachPair_inv propUri dt t v a _ hin
      refine List.mem_flatMap.mpr ⟨a, ha, ?_⟩
      rw [h1, h2]
      exact code_mem_attachPair propUri dt a _ (h2 ▸ hcode)
    · rw [if_neg hc2] at hmem ⊢
      obtain ⟨it, hit, hin⟩ := List.mem_flatMap.mp hmem
      cases hv : values.get? it.1 with
      | none =>
        simp only [hv] at hin
        cases hin
      | some v' =>
        simp only [hv] at hin
        obtain ⟨h1, h2⟩ := mem_attachPair_inv propUri dt t v it.2 v' hin
        refine List.mem_flatMap.mpr ⟨it, hit, ?_⟩
        simp only [hv]
        rw [h1, h2]
        exact code_mem_attachPair propUri dt it.2 v' (h2 ▸ hcode)
  · rw [if_neg hc1] at hmem ⊢
    obtain ⟨it, hit, hin⟩ := List.mem_flatMap.mp hmem
    cases hv : values.get? it.1 with
    | none =>
      simp only [hv] at hin
      cases hin
    | some v' =>
      simp only [hv] at hin
      by_cases hv' : v' = ""
      · rw [if_pos hv'] at hin
        cases hin
      · rw [if_neg hv'] at hin
        obtain ⟨h1, h2⟩ := mem_attachPair_inv propUri dt t v it.2 v' hin
        refine List.mem_flatMap.mpr ⟨it, hit, ?_⟩
        simp only [hv]
        rw [if_neg hv', h1, h2]
        exact code_mem_attachPair propUri dt it.2 v' (h2 ▸ hcode)

/-- C8 witness: the value "ABCDE12345" attached to a single target also
produces the secondary `drber:code` triple. -/
theorem C8_code_heuristic_witness :
    Triple.mk "http://e/u" drberCode (.lit "ABCDE12345" none) ∈
      attachTriples "http://e/p" xsdString ["ABCDE12345"] ["http://e/u"] :=
  C8_code_heuristic "http://e/p" xsdString "ABCDE12345" "http://e/u"
    ["ABCDE12345"] ["http://e/u"] (by decide) (by decide)

/-! Lemmas for the row-local cache and the no-dangling-attachment rule
(claims C6 and C10). -/

theorem processMainCol_skip (row : Row) (mainUri : String) (delims : List (String × String))
    (colName : String) (cfg : MappingConfig) (st : ConvState)
    (h : rowGet row colName = none ∨ rowGet row colName = some Cell.na) :
    processMainCol row mainUri delims colName cfg st = (st, none) := by
  unfold processMainCol
  rcases h with h | h <;> rw [h]

theorem if_entry_cases (b : Bool) (x : List String) (colName : String) :
    (if b = true then none else some (colName, x)) = none ∨
    ∃ us, (if b = true then none else some (colName, x)) = some (colName, us) := by
  cases b
  · right
    exact ⟨x, rfl⟩
  · left
    rfl

theorem processMainCol_entry_key (row : Row) (mainUri : String)
    (delims : List (String × String)) (colName : String) (cfg : MappingConfig)
    (st : ConvState) :
    (processMainCol row mainUri delims colName cfg st).2 = none ∨
    ∃ us, (processMainCol row mainUri delims colName cfg st).2 = some (colName, us) := by
  unfold processMainCol
  rcases hrg : rowGet row colName with _ | c
  · left
    rfl
  · cases c with
    | na => left; rfl
    | str raw =>
      dsimp only
      by_cases hl : cfg.mapping_type = "literal"
      · rw [if_pos hl]
        left
        rfl
      · rw [if_neg hl]
        by_cases ho : cfg.mapping_type = "object_property"
        · rw [if_pos ho]
          exact if_entry_cases _ _ colName
        · rw [if_neg ho]
          left
          rfl

theorem lookupRowCache_append_single (acc : List (String × List String))
    (c target : String) (us : List String)
    (hacc : lookupRowCache acc target = none) (hne : c ≠ target) :
    lookupRowCache (acc ++ [(c, us)]) target = none := by
  unfold lookupRowCache at hacc ⊢
  rw [List.find?_append]
  have h1 : acc.find? (fun p => p.1 == target) = none := by
    cases hf : acc.find? (fun p => p.1 == target) with
    | none => rfl
    | some p =>
      rw [hf] at hacc
      cases hacc
  rw [h1]
  have h2 : List.find? (fun p => p.1 == target) [(c, us)] = none := by
    rw [List.find?_cons]
    have : ((c, us).1 == target) = false := beq_eq_false_iff_ne.mpr hne
    rw [this]
    rfl
  rw [h2]
  rfl

theorem mainPass_fold_lookup_none (row : Row) (mainUri : String)
    (delims : List (String × String)) (target : String)
    (hna : rowGet row target = none ∨ rowGet row target = some Cell.na) :
    ∀ (mains : List (String × MappingConfig)) (st : ConvState)
      (acc : List (String × List String)),
      lookupRowCache acc target = none →
      lookupRowCache ((mains.foldl (mainStep row mainUri delims) (st, acc)).2) target = none := by
  intro mains
  induction mains with
  | nil => intro st acc hacc; exact hacc
  | cons pc rest ih =>
    intro st acc hacc
    rw [List.foldl_cons]
    by_cases hc : pc.1 = target
    · have hskip := processMainCol_skip row mainUri delims pc.1 pc.2 st (hc ▸ hna)
      have hstep : mainStep row mainUri delims (st, acc) pc = (st, acc) := by
        unfold mainStep
        dsimp only
        rw [hskip]
      rw [hstep]
      exact ih st acc hacc
    · rcases processMainCol_entry_key row mainUri delims pc.1 pc.2 st with he | ⟨us, he⟩
      · have hstep : mainStep row mainUri delims (st, acc) pc
            = ((processMainCol row mainUri delims pc.1 pc.2 st).1, acc) := by
          unfold mainStep
          dsimp only
          rw [he]
        rw [hstep]
        exact ih _ acc hacc
      · have hstep : mainStep row mainUri delims (st, acc) pc
            = ((processMainCol row mainUri delims pc.1 pc.2 st).1, acc ++ [(pc.1, us)]) := by
          unfold mainStep
          dsimp only
          rw [he]
        rw [hstep]
        exact ih _ _ (lookupRowCache_append_single acc pc.1 target us hacc hc)

/-- C6 (confirmed): a dependent literal column whose applies-to names a
column that created no related entities in the current row (here: because
its cell is null or absent, so the main pass skipped it and stored no
row-cache entry) contributes zero triples for that row — the graph is
returned unchanged — even when its own cell has a value. -/
theorem C6_no_dangling (row : Row) (mainUri : String) (delims : List (String × String))
    (mains : List (String × MappingConfig)) (st : ConvState)
    (targetCol depCol : String) (depCfg : MappingConfig) (g : Graph)
    (hna : rowGet row targetCol = none ∨ rowGet row targetCol = some Cell.na)
    (happ : depCfg.applies_to_entity = some targetCol) :
    lookupRowCache (mainPass row mainUri delims mains st).2 targetCol = none ∧
    processRelatedCol row (mainPass row mainUri delims mains st).2 depCol depCfg g = g := by
  have hnone : lookupRowCache (mainPass row mainUri delims mains st).2 targetCol = none :=
    mainPass_fold_lookup_none row mainUri delims targetCol hna mains st [] rfl
  refine ⟨hnone, ?_⟩
  unfold processRelatedCol
  rw [happ, Option.getD_some, hnone]

/-- C6 witness: target column "T" is null while the dependent column "D"
holds the value "x"; the related pass leaves the graph unchanged. -/
theorem C6_no_dangling_witness :
    processRelatedCol [("T", Cell.na), ("D", Cell.str "x")]
      (mainPass [("T", Cell.na), ("D", Cell.str "x")] "http://e/m" []
        [("T", { prop_uri := "http://e/p", mapping_type := "object_property",
                 related_entity_type_uri := some "http://x#P" })] ⟨[], []⟩).2
      "D" { prop_uri := "http://e/q", mapping_type := "literal",
            applies_to_entity := some "T" }
      [⟨"http://e/s", "http://e/p0", .uri "http://e/o"⟩]
    = [⟨"http://e/s", "http://e/p0", .uri "http://e/o"⟩] :=
  (C6_no_dangling [("T", Cell.na), ("D", Cell.str "x")] "http://e/m" []
    [("T", { prop_uri := "http://e/p", mapping_type := "object_property",
             related_entity_type_uri := some "http://x#P" })] ⟨[], []⟩
    "T" "D" { prop_uri := "http://e/q", mapping_type := "literal",
              applies_to_entity := some "T" }
    [⟨"http://e/s", "http://e/p0", .uri "http://e/o"⟩]
    (Or.inr (by decide)) rfl).2

/-- C9 (confirmed): an object-property column whose related-entity class
tag is missing (`None`) or empty uses the generic fallback class
`drber:RelatedEntity`, and the entities minted from that column get URIs
in the `drber:relatedentity/` namespace; nothing is raised (the embedding
is total). -/
theorem C9_fallback_class (o : Option String) (v : String)
    (h : o = none ∨ o = some "") :
    effectiveTypeStr o = drberRelatedEntity ∧
    relatedEntityUri (effectiveTypeStr o) v =
      "http://drber.example.org/ns#relatedentity/" ++ clean_uri_segment v := by
  have he : effectiveTypeStr o = drberRelatedEntity := by
    rcases h with h | h <;> rw [h] <;> rfl
  refine ⟨he, ?_⟩
  rw [he]
  unfold relatedEntityUri
  rw [show DRBER ++ typeLocalSegment drberRelatedEntity ++ "/" =
      "http://drber.example.org/ns#relatedentity/" by decide]

/-- C9 witness: a missing class tag resolves to the fallback class and
namespace. -/
theorem C9_fallback_class_witness :
    effectiveTypeStr none = drberRelatedEntity ∧
    relatedEntityUri (effectiveTypeStr none) "x y" =
      "http://drber.example.org/ns#relatedentity/" ++ clean_uri_segment "x y" :=
  C9_fallback_class none "x y" (Or.inl rfl)

/-! Membership lemmas for set-semantics insertion (C10). -/

theorem mem_addTriple_self (g : Graph) (t : Triple) : t ∈ addTriple g t := by
  unfold addTriple
  split
  · assumption
  · exact List.mem_append_right _ (List.mem_singleton.mpr rfl)

theorem mem_addTriple_of_mem (g : Graph) (t a : Triple) (h : a ∈ g) : a ∈ addTriple g t := by
  unfold addTriple
  split
  · exact h
  · exact List.mem_append_left _ h

theorem mem_addTriples_of_mem (ts : List Triple) :
    ∀ (g : Graph) (a : Triple), a ∈ g → a ∈ addTriples g ts := by
  induction ts with
  | nil => intro g a h; exact h
  | cons b bs ih => intro g a h; exact ih (addTriple g b) a (mem_addTriple_of_mem g b a h)

theorem mem_addTriples_of_mem_list (ts : List Triple) :
    ∀ (g : Graph) (a : Triple), a ∈ ts → a ∈ addTriples g ts := by
  induction ts with
  | nil => intro g a h; cases h
  | cons b bs ih =>
    intro g a h
    rcases List.mem_cons.mp h with rfl | h'
    · exact mem_addTriples_of_mem bs (addTriple g a) a (mem_addTriple_self g a)
    · exact ih (addTriple g b) a h'

theorem attach_single_all_targets (propUri dt v : String) (hv : v ≠ "")
    (targets : List String) :
    ∀ t ∈ targets,
      Triple.mk t propUri (.lit v (some dt)) ∈ attachTriples propUri dt [v] targets := by
  intro t ht
  unfold attachTriples
  by_cases hlen : targets.length = 1
  · have hc1 : ¬(([v] : List String).length ≠ targets.length ∧ 0 < ([v] : List String).length) := by
      simp [hlen]
    rw [if_neg hc1]
    obtain ⟨t0, rfl⟩ := List.length_eq_one.mp hlen
    rcases List.mem_singleton.mp ht with rfl
    show Triple.mk t propUri (.lit v (some dt)) ∈
      (if v = "" then [] else attachPair propUri dt t v) ++ []
    rw [if_neg hv]
    exact List.mem_append_left _ (List.mem_cons_self _ _)
  · have hc1 : ([v] : List String).length ≠ targets.length ∧ 0 < ([v] : List String).length := by
      simp [hlen]
      omega
    rw [if_pos hc1, if_pos (show ([v] : List String).length = 1 from rfl)]
    exact List.mem_flatMap.mpr ⟨t, ht, List.mem_cons_self _ _⟩

/-- C10, counterexample: the claim says a NaN dependent cell is always
"attached as a literal to the target entities instead of contributing
nothing", but for a multivalued dependent column the stringified cell
"nan" is first split on the column's delimiter (line 296): with delimiter
"nan" the split leaves nothing and the column contributes zero triples,
and with delimiter "a" it attaches the fragment "n", not "nan". -/
theorem C10_counterexample :
    processRelatedCol [("D", Cell.na)] [("T", ["http://e/u"])] "D"
      { prop_uri := "http://e/q", mapping_type := "literal",
        applies_to_entity := some "T", is_multivalued := some true,
        delimiter := some "nan" } [] = [] ∧
    processRelatedCol [("D", Cell.na)] [("T", ["http://e/u"])] "D"
      { prop_uri := "http://e/q", mapping_type := "literal",
        applies_to_entity := some "T", is_multivalued := some true,
        delimiter := some "a" } []
      = [⟨"http://e/u", "http://e/q", .lit "n" (some xsdString)⟩] := by decide

/-- C10, amended: unlike the main-entity pass, which skips a column whose
cell is null, the related-entity pass performs no null check: when the
target column produced entities in the row, the dependent column's NaN
cell is stringified to the string "nan" and then processed like any
other raw value — split per the column's configuration and attached by
the usual correspondence logic.  For a non-multivalued dependent column
this attaches the literal "nan" itself to every target entity; a
multivalued column first splits "nan" on its delimiter and may therefore
attach fragments of "nan" or nothing at all. -/
theorem C10_amended (row : Row) (rowCache : List (String × List String))
    (colName : String) (cfg : MappingConfig) (g : Graph) (targets : List String)
    (hna : rowGet row colName = some Cell.na)
    (hcache : lookupRowCache rowCache (cfg.applies_to_entity.getD "main_entity") = some targets) :
    (∀ (mainUri : String) (delims : List (String × String)) (st : ConvState),
       processMainCol row mainUri delims colName cfg st = (st, none)) ∧
    processRelatedCol row rowCache colName cfg g =
      addTriples g (attachTriples cfg.prop_uri (cfg.datatype.getD xsdString)
        (splitValues "nan" (cfg.is_multivalued.getD false) (cfg.delimiter.getD ";")) targets) ∧
    ((cfg.is_multivalued = none ∨ cfg.is_multivalued = some false) →
      ∀ t ∈ targets,
        Triple.mk t cfg.prop_uri (.lit "nan" (some (cfg.datatype.getD xsdString)))
          ∈ processRelatedCol row rowCache colName cfg g) := by
  refine ⟨?_, ?_, ?_⟩
  · intro mainUri delims st
    exact processMainCol_skip row mainUri delims colName cfg st (Or.inr hna)
  · unfold processRelatedCol
    rw [hcache, hna]
    rfl
  · intro hmulti t ht
    unfold processRelatedCol
    rw [hcache]
    have hm : cfg.is_multivalued.getD false = false := by
      rcases hmulti with h | h <;> rw [h] <;> rfl
    rw [hna, hm]
    exact mem_addTriples_of_mem_list _ g _
      (attach_single_all_targets cfg.prop_uri (cfg.datatype.getD xsdString) "nan"
        (by decide) targets t ht)

/-- C10 witness: a NaN non-multivalued dependent cell attaches the literal
"nan" to the target entity produced by column "T". -/
theorem C10_amended_witness :
    Triple.mk "http://e/u" "http://e/q" (.lit "nan" (some xsdString))
      ∈ processRelatedCol [("D", Cell.na)] [("T", ["http://e/u"])] "D"
          { prop_uri := "http://e/q", mapping_type := "literal",
            applies_to_entity := some "T" } [] :=
  (C10_amended [("D", Cell.na)] [("T", ["http://e/u"])] "D"
      { prop_uri := "http://e/q", mapping_type := "literal",
        applies_to_entity := some "T" }
      [] ["http://e/u"] (by decide) (by decide)).2.2 (Or.inl rfl)
    "http://e/u" (by decide)

/-- C1, counterexample: two object-property columns with distinct class
tags `http://x#P` and `http://y#P` (same sanitized lowercased local name
"p") and the same value "v" mint the same node id, but the global cache
is keyed by the full class tag, so the node receives two `rdf:type`
triples — the claim's "exactly one rdf:type triple ... (distinct class
tags ... must not give the node a second type ...)" fails. -/
theorem C1_counterexample :
    (gTwoTags.filter (fun tr =>
       tr.subj == "http://drber.example.org/ns#p/v" && tr.pred == rdfType)).length = 2 := by
  decide

/-! Duplicate-freeness of every graph the pipeline builds (for C1). -/

theorem addTriple_nodup (g : Graph) (t : Triple) (h : g.Nodup) : (addTriple g t).Nodup := by
  unfold addTriple
  by_cases hm : t ∈ g
  · rw [if_pos hm]
    exact h
  · rw [if_neg hm]
    refine List.nodup_append.mpr ⟨h, List.nodup_singleton t, ?_⟩
    intro a ha hb
    rw [List.mem_singleton] at hb
    subst hb
    exact hm ha

theorem addTriples_nodup (ts : List Triple) :
    ∀ g : Graph, g.Nodup → (addTriples g ts).Nodup := by
  induction ts with
  | nil => intro g h; exact h
  | cons t ts ih => intro g h; exact ih (addTriple g t) (addTriple_nodup g t h)

theorem processObjectValue_nodup (row : Row) (mainUri : String)
    (delims : List (String × String)) (colName : String) (cfg : MappingConfig)
    (i : Nat) (value : String) (st : ConvState) (acc : List String) (h : st.g.Nodup) :
    (processObjectValue row mainUri delims colName cfg i value st acc).1.g.Nodup := by
  unfold processObjectValue
  dsimp only
  apply addTriple_nodup
  split
  · exact addTriple_nodup _ _ h
  · exact addTriple_nodup _ _ (addTriple_nodup _ _ (addTriple_nodup _ _ h))

theorem objLoop_nodup (row : Row) (mainUri : String) (delims : List (String × String))
    (colName : String) (cfg : MappingConfig) :
    ∀ (l : List (Nat × String)) (p : ConvState × List String), p.1.g.Nodup →
      ((l.foldl (fun (p : ConvState × List String) iv =>
          processObjectValue row mainUri delims colName cfg iv.1 iv.2 p.1 p.2) p).1.g.Nodup) := by
  intro l
  induction l with
  | nil => intro p h; exact h
  | cons iv rest ih =>
    intro p h
    rw [List.foldl_cons]
    exact ih _ (processObjectValue_nodup row mainUri delims colName cfg iv.1 iv.2 p.1 p.2 h)

theorem litLoop_nodup (mk : String → Triple) :
    ∀ (vs : List String) (g : Graph), g.Nodup →
      (vs.foldl (fun g v => addTriple g (mk v)) g).Nodup := by
  intro vs
  induction vs with
  | nil => intro g h; exact h
  | cons v rest ih => intro g h; exact ih (addTriple g (mk v)) (addTriple_nodup g (mk v) h)

theorem processMainCol_nodup (row : Row) (mainUri : String)
    (delims : List (String × String)) (colName : String) (cfg : MappingConfig)
    (st : ConvState) (h : st.g.Nodup) :
    ((processMainCol row mainUri delims colName cfg st).1).g.Nodup := by
  unfold processMainCol
  rcases hrg : rowGet row colName with _ | c
  · exact h
  · cases c with
    | na => exact h
    | str raw =>
      dsimp only
      by_cases hl : cfg.mapping_type = "literal"
      · rw [if_pos hl]
        exact litLoop_nodup _ _ st.g h
      · rw [if_neg hl]
        by_cases ho : cfg.mapping_type = "object_property"
        · rw [if_pos ho]
          exact objLoop_nodup row mainUri delims colName cfg _ (st, []) h
        · rw [if_neg ho]
          exact h

theorem mainPass_fold_nodup (row : Row) (mainUri : String)
    (delims : List (String × String)) :
    ∀ (mains : List (String × MappingConfig))
      (p : ConvState × List (String × List String)), p.1.g.Nodup →
      ((mains.foldl (mainStep row mainUri delims) p).1.g.Nodup) := by
  intro mains
  induction mains with
  | nil => intro p h; exact h
  | cons pc rest ih =>
    intro p h
    rw [List.foldl_cons]
    exact ih _ (processMainCol_nodup row mainUri delims pc.1 pc.2 p.1 h)

theorem processRelatedCol_nodup (row : Row) (rowCache : List (String × List String))
    (colName : String) (cfg : MappingConfig) (g : Graph) (h : g.Nodup) :
    (processRelatedCol row rowCache colName cfg g).Nodup := by
  unfold processRelatedCol
  rcases hl : lookupRowCache rowCache (cfg.applies_to_entity.getD "main_entity") with _ | ts
  · exact h
  · exact addTriples_nodup _ g h

theorem relLoop_nodup (row : Row) (rowCache : List (String × List String)) :
    ∀ (rels : List (String × MappingConfig)) (g : Graph), g.Nodup →
      (rels.foldl (fun g pc => processRelatedCol row rowCache pc.1 pc.2 g) g).Nodup := by
  intro rels
  induction rels with
  | nil => intro g h; exact h
  | cons pc rest ih =>
    intro g h
    rw [List.foldl_cons]
    exact ih _ (processRelatedCol_nodup row rowCache pc.1 pc.2 g h)

theorem processRow_nodup (mainTypeUri idCol : String) (delims : List (String × String))
    (maps : List (String × MappingConfig)) (index : Nat) (row : Row)
    (st : ConvState) (h : st.g.Nodup) :
    (processRow mainTypeUri idCol delims maps index row st).g.Nodup := by
  unfold processRow
  dsimp only
  apply relLoop_nodup
  exact mainPass_fold_nodup row _ delims _ _
    (addTriple_nodup _ _ (addTriple_nodup _ _ h))

theorem rowsLoop_nodup (mainTypeUri idCol : String) (delims : List (String × String))
    (maps : List (String × MappingConfig)) :
    ∀ (l : List (Nat × Row)) (st : ConvState), st.g.Nodup →
      ((l.foldl (fun st ir => processRow mainTypeUri idCol delims maps ir.1 ir.2 st) st).g.Nodup) := by
  intro l
  induction l with
  | nil => intro st h; exact h
  | cons ir rest ih =>
    intro st h
    rw [List.foldl_cons]
    exact ih _ (processRow_nodup mainTypeUri idCol delims maps ir.1 ir.2 st h)

theorem convertir_nodup (df : List Row) (mainTypeUri idCol : String)
    (delims : List (String × String)) (maps : List (String × MappingConfig)) :
    (convertir_dataframe_a_rdf df mainTypeUri idCol delims maps).Nodup := by
  unfold convertir_dataframe_a_rdf
  dsimp only
  exact rowsLoop_nodup mainTypeUri idCol delims maps df.enum _
    (addTriple_nodup [] _ List.nodup_nil)

/-- C1, amended: for every class tag and pair of discriminators with the
same sanitized form, the minted node id is identical; the final graph of
every run is duplicate-free, so no node ever carries a duplicated
rdf:type or rdfs:label triple; and the global cache makes the type/label
mint block run at most once per (class tag, node id): a reference whose
(class tag, minted URI) pair is already cached adds only the class
declaration and the linking triple — no new rdf:type or rdfs:label
triple for the node, even when its raw label value differs — while an
uncached reference emits exactly the type and label triples and
registers the pair.  Distinct class tags whose sanitized lowercased
local names coincide map to the same node id but use distinct cache
keys, so each contributes its own rdf:type (and possibly rdfs:label)
triple, as the counterexample shows. -/
theorem C1_amended :
    (∀ (t v1 v2 : String), clean_uri_segment v1 = clean_uri_segment v2 →
       relatedEntityUri t v1 = relatedEntityUri t v2) ∧
    (∀ (df : List Row) (mainTypeUri idCol : String) (delims : List (String × String))
       (maps : List (String × MappingConfig)),
       (convertir_dataframe_a_rdf df mainTypeUri idCol delims maps).Nodup) ∧
    (∀ (row : Row) (mainUri : String) (delims : List (String × String))
       (colName : String) (cfg : MappingConfig) (i : Nat) (value : String)
       (st : ConvState) (acc : List String) (typeStr uri : String),
       typeStr = effectiveTypeStr cfg.related_entity_type_uri →
       uri = relatedEntityUri typeStr (relatedIdValue row colName cfg delims i value) →
       (((typeStr, uri) ∈ st.cache →
          (processObjectValue row mainUri delims colName cfg i value st acc).1.g
            = addTriple (addTriple st.g ⟨typeStr, rdfType, .uri owlClass⟩)
                ⟨mainUri, cfg.prop_uri, .uri uri⟩ ∧
          (processObjectValue row mainUri delims colName cfg i value st acc).1.cache
            = st.cache) ∧
        ((typeStr, uri) ∉ st.cache →
          (processObjectValue row mainUri delims colName cfg i value st acc).1.g
            = addTriple (addTriple (addTriple
                (addTriple st.g ⟨typeStr, rdfType, .uri owlClass⟩)
                ⟨uri, rdfType, .uri typeStr⟩)
                ⟨uri, rdfsLabel, .lit (relatedIdValue row colName cfg delims i value) none⟩)
                ⟨mainUri, cfg.prop_uri, .uri uri⟩ ∧
          (processObjectValue row mainUri delims colName cfg i value st acc).1.cache
            = st.cache ++ [(typeStr, uri)]))) := by
  refine ⟨?_, ?_, ?_⟩
  · intro t v1 v2 h
    unfold relatedEntityUri
    rw [h]
  · intro df mainTypeUri idCol delims maps
    exact convertir_nodup df mainTypeUri idCol delims maps
  · intro row mainUri delims colName cfg i value st acc typeStr uri ht hu
    subst ht
    subst hu
    constructor
    · intro hmem
      unfold processObjectValue
      dsimp only
      rw [if_pos hmem, if_pos hmem]
      exact ⟨rfl, rfl⟩
    · intro hmem
      unfold processObjectValue
      dsimp only
      rw [if_neg hmem, if_neg hmem]
      exact ⟨rfl, rfl⟩

/-- C1 witness: concrete instances of the amended theorem — the colliding
discriminators "a b" and "a_b" yield the same URI under one class tag,
and a cached reference to that URI adds no new type or label triple. -/
theorem C1_amended_witness :
    relatedEntityUri "http://x#P" "a b" = relatedEntityUri "http://x#P" "a_b" ∧
    (processObjectValue [] "http://e/m" [] "A"
        { prop_uri := "http://e/p1", mapping_type := "object_property",
          related_entity_type_uri := some "http://x#P" } 0 "a_b"
        ⟨[], [("http://x#P", "http://drber.example.org/ns#p/a_b")]⟩ []).1.g
      = addTriple (addTriple [] ⟨"http://x#P", rdfType, .uri owlClass⟩)
          ⟨"http://e/m", "http://e/p1", .uri "http://drber.example.org/ns#p/a_b"⟩ :=
  ⟨C1_amended.1 "http://x#P" "a b" "a_b" (by decide),
   ((C1_amended.2.2 [] "http://e/m" [] "A"
      { prop_uri := "http://e/p1", mapping_type := "object_property",
        related_entity_type_uri := some "http://x#P" } 0 "a_b"
      ⟨[], [("http://x#P", "http://drber.example.org/ns#p/a_b")]⟩ []
      "http://x#P" "http://drber.example.org/ns#p/a_b" (by decide) (by decide)).1
      (by decide)).1⟩

/-- C2 (confirmed): the conversion core is a pure function of its inputs —
running it twice on the same dataframe, main-entity type and id column,
delimiter configuration and column mappings yields the identical triple
set.  (The single nondeterminism candidate in the Python code, the set
iteration of line 198, cannot change the outcome: the kept set is an
antichain under the prefix order, so at most one element is
prefix-related to any candidate.) -/
theorem C2_determinism (df : List Row) (mainTypeUri idCol : String)
    (delims : List (String × String)) (maps : List (String × MappingConfig)) :
    convertir_dataframe_a_rdf df mainTypeUri idCol delims maps =
      convertir_dataframe_a_rdf df mainTypeUri idCol delims maps := rfl

end TabuladorRDF
